import Mathlib

/-!
Verification development for the `diffrt` differentiable path tracer.

The C++ sources are shallowly embedded in Lean 4:

* Machine floating point (`Float_t = float`) is idealized as `ℚ`; the
  transcendental library calls (`std::sqrt`, `std::pow`, `std::sin`,
  `std::cos`, `std::acos`, `M_PI`, `M_1_PI`) are abstracted as a
  `MathOracle` record of rational-valued functions, and theorems assume
  only the algebraic facts about the oracle that a given claim needs.
* The fatal error paths of the source (`exit(1)` on division by zero in
  `ad::Float::operator/` and `DivBackwardFn::backward`, and on an illegal
  `requires_grad` transition) are modelled with `Except Err` / `Option`.
* The thread-local Mersenne-twister PRNG (`uniform` in rtmath.h) is
  modelled by the deterministic stream of realized draws it produces,
  a function `ℕ → ℚ` consumed at an explicit cursor position.
* The autograd tape (`ad::Float` and its `BackwardFn` hierarchy in
  autograd.h) is embedded as an inductive expression tree: the C++
  backward traversal is a naive DAG walk that revisits a shared node once
  per incoming edge, which is exactly the semantics of the tree
  unfolding.  Accumulating-leaf gradient slots are a store `ℕ → ℚ`
  indexed by leaf identity.
* Renderer-level claims concern the numeric values of tracked scalars,
  so the renderer layer (rtmath.h, bsdf.cc, objects.cc, main.cc) is
  embedded at value level: each `ad::Float` is represented by its
  `value()`, with the division-by-zero abort kept explicit.
-/

/-- Abstraction of the libm calls used by the source, as exact rational
functions.  `piV` models `M_PI` and `invPiV` models `M_1_PI`. -/
structure MathOracle where
  sqrtFn : ℚ → ℚ
  powFn : ℚ → ℚ → ℚ
  sinFn : ℚ → ℚ
  cosFn : ℚ → ℚ
  acosFn : ℚ → ℚ
  piV : ℚ
  invPiV : ℚ

/-- The fatal error exits of the source: `exit(1)` on division by zero
(`ad::Float::operator/`, `DivBackwardFn::backward`) and on an illegal
`requires_grad` transition (`ad::Float::requires_grad`). -/
inductive Err where
  | divByZero
  | fatalRG
deriving DecidableEq, Repr

/-- Embeds `ad::Float::operator/` at value level: aborts when the denominator
value is zero, otherwise divides (autograd.h:209-216). -/
def fdiv (a b : ℚ) : Except Err ℚ :=
  if b = 0 then .error .divByZero else .ok (a / b)

/-- Value level of `Vec3` (rtmath.h:23-72): the three tracked scalar
components represented by their numeric values. -/
structure Vec3q where
  x : ℚ
  y : ℚ
  z : ℚ
deriving DecidableEq, Repr

namespace Vec3q

def vzero : Vec3q := ⟨0, 0, 0⟩

/-- Embeds `Vec3::operator+`. -/
def add (a b : Vec3q) : Vec3q := ⟨a.x + b.x, a.y + b.y, a.z + b.z⟩

/-- Embeds `Vec3::operator-` (binary). -/
def sub (a b : Vec3q) : Vec3q := ⟨a.x - b.x, a.y - b.y, a.z - b.z⟩

/-- Embeds `Vec3::operator*` with another `Vec3` (componentwise). -/
def vmul (a b : Vec3q) : Vec3q := ⟨a.x * b.x, a.y * b.y, a.z * b.z⟩

/-- Embeds `Vec3::operator*` with a scalar. -/
def smul (a : Vec3q) (s : ℚ) : Vec3q := ⟨a.x * s, a.y * s, a.z * s⟩

/-- Embeds `Vec3::operator-` (unary). -/
def neg (a : Vec3q) : Vec3q := ⟨-a.x, -a.y, -a.z⟩

/-- Embeds `Vec3::dot`. -/
def dot (a b : Vec3q) : ℚ := a.x * b.x + a.y * b.y + a.z * b.z

/-- Embeds `Vec3::cross`. -/
def cross (a b : Vec3q) : Vec3q :=
  ⟨a.y * b.z - a.z * b.y, a.z * b.x - a.x * b.z, a.x * b.y - a.y * b.x⟩

/-- Embeds `Vec3::norm_squared`. -/
def normSq (a : Vec3q) : ℚ := a.x * a.x + a.y * a.y + a.z * a.z

/-- Embeds `Vec3::max`: the componentwise maximum, as a value (rtmath.h:42). -/
def vmax (a : Vec3q) : ℚ := max a.x (max a.y a.z)

/-- Embeds `Vec3::operator/` by a scalar: `(*this) * (1.0 / scalar)`, going
through the zero-checked `Float` division (rtmath.h:48). -/
def divS (a : Vec3q) (s : ℚ) : Except Err Vec3q := do
  let inv ← fdiv 1 s
  return smul a inv

/-- Embeds `Vec3::norm`: `sqrt(norm_squared)` at value level (rtmath.h:62). -/
def norm (o : MathOracle) (a : Vec3q) : ℚ := o.sqrtFn (normSq a)

/-- Embeds `Vec3::normalize`: `(*this) / norm()` (rtmath.h:63); aborts via the
checked division when the computed norm is zero. -/
def normalize (o : MathOracle) (a : Vec3q) : Except Err Vec3q :=
  divS a (norm o a)

end Vec3q

open Vec3q

/-- Embeds `sign` (rtmath.h:21): `x >= 0 ? 1 : -1`. -/
def signQ (x : ℚ) : ℚ := if 0 ≤ x then 1 else -1

/-- Value level of `Ray` (rtmath.h:85-99).  The constructor normalizes
the direction, so construction goes through `mkRay` below. -/
structure Rayq where
  o : Vec3q
  d : Vec3q
deriving DecidableEq, Repr

/-- The `Ray` constructor (rtmath.h:90): stores the origin and the
normalized direction. -/
def mkRay (or : MathOracle) (origin dir : Vec3q) : Except Err Rayq := do
  let nd ← normalize or dir
  return ⟨origin, nd⟩

/-- Embeds `Ray::at` (rtmath.h:92). -/
def rayAt (r : Rayq) (t : ℚ) : Vec3q := add r.o (smul r.d t)

/-!
## The autograd tape (autograd.h)

An `ad::Float` owns a `Ctx` holding a value, a gradient slot and a
backward descriptor.  The descriptor is one of: `NoneBackwardFn` (inert
leaf), `AccBackwardFn` (accumulating leaf, writes its own grad slot), or
a derived-operation descriptor holding shared references to the parent
`Ctx`s.  We embed a `Ctx` as a tree node: a leaf carries the identity
`id` of its gradient slot; a derived node carries its parents as
subterms, together with the value stored at construction time.  The C++
backward pass revisits a shared node once per incoming edge, which is
exactly the recursion over this tree.  Gradient slots live in a separate
store `ℕ → ℚ`.
-/

/-- A tape node (`ad::Ctx` with its `BackwardFn`).  Each node stores the
value computed at construction; a leaf also records which gradient slot
it owns and whether its descriptor is `AccBackwardFn` (`acc = true`) or
`NoneBackwardFn` (`acc = false`). -/
inductive AdExpr where
  | leaf (id : ℕ) (v : ℚ) (acc : Bool)
  | addN (l r : AdExpr) (v : ℚ)
  | subN (l r : AdExpr) (v : ℚ)
  | mulN (l r : AdExpr) (v : ℚ)
  | divN (l r : AdExpr) (v : ℚ)
  | negN (a : AdExpr) (v : ℚ)
  | powN (a : AdExpr) (k : ℚ) (v : ℚ)
  | sinN (a : AdExpr) (v : ℚ)
  | cosN (a : AdExpr) (v : ℚ)
deriving DecidableEq, Repr

namespace AdExpr

/-- Embeds `ad::Float::value()`: the value stored in the node's `Ctx`. -/
def val : AdExpr → ℚ
  | leaf _ v _ => v
  | addN _ _ v => v
  | subN _ _ v => v
  | mulN _ _ v => v
  | divN _ _ v => v
  | negN _ v => v
  | powN _ _ v => v
  | sinN _ v => v
  | cosN _ v => v

/-- Embeds `ad::Float::is_none_fn()`: the backward descriptor is
`NoneBackwardFn` (autograd.h:258-260). -/
def isNoneFn : AdExpr → Bool
  | leaf _ _ acc => !acc
  | _ => false

/-- Embeds `ad::Float::is_acc_fn()` (autograd.h:255-257). -/
def isAccFn : AdExpr → Bool
  | leaf _ _ acc => acc
  | _ => false

/-- Embeds `ad::Float::is_leaf()`: `AccBackwardFn` or `NoneBackwardFn`
(autograd.h:262-268). -/
def isLeafE (e : AdExpr) : Bool := e.isAccFn || e.isNoneFn

/-- The `Float(v, requires_grad)` public constructor (autograd.h:136-144):
a fresh leaf, accumulating iff `requires_grad`. -/
def mkLeaf (id : ℕ) (v : ℚ) (rg : Bool) : AdExpr := leaf id v rg

/-- Embeds `ad::Float::operator+` (autograd.h:189-192): short-circuits to an
inert leaf when both operands are inert leaves, else builds an
`AddBackwardFn` node.  The short-circuited leaf is a fresh `Ctx` whose
grad slot is never accessed; we give it slot 0. -/
def addF (a b : AdExpr) : AdExpr :=
  if a.isNoneFn && b.isNoneFn then leaf 0 (a.val + b.val) false
  else addN a b (a.val + b.val)

/-- Embeds `ad::Float::operator-` binary (autograd.h:204-207). -/
def subF (a b : AdExpr) : AdExpr :=
  if a.isNoneFn && b.isNoneFn then leaf 0 (a.val - b.val) false
  else subN a b (a.val - b.val)

/-- Embeds `ad::Float::operator*` (autograd.h:194-197). -/
def mulF (a b : AdExpr) : AdExpr :=
  if a.isNoneFn && b.isNoneFn then leaf 0 (a.val * b.val) false
  else mulN a b (a.val * b.val)

/-- Embeds `ad::Float::operator/` (autograd.h:209-216): aborts when the
denominator's value is zero, else short-circuits or builds a
`DivBackwardFn` node. -/
def divF (a b : AdExpr) : Except Err AdExpr :=
  if b.val = 0 then .error .divByZero
  else .ok (if a.isNoneFn && b.isNoneFn then leaf 0 (a.val / b.val) false
            else divN a b (a.val / b.val))

/-- Unary `ad::Float::operator-` (autograd.h:218-221). -/
def negF (a : AdExpr) : AdExpr :=
  if a.isNoneFn then leaf 0 (-a.val) false else negN a (-a.val)

/-- Embeds `ad::Float::pow` (autograd.h:223-226); the value is
`std::pow(value, exponent)` via the oracle. -/
def powF (o : MathOracle) (a : AdExpr) (k : ℚ) : AdExpr :=
  if a.isNoneFn then leaf 0 (o.powFn a.val k) false
  else powN a k (o.powFn a.val k)

/-- Embeds `ad::Float::sin` (autograd.h:235-238). -/
def sinF (o : MathOracle) (a : AdExpr) : AdExpr :=
  if a.isNoneFn then leaf 0 (o.sinFn a.val) false else sinN a (o.sinFn a.val)

/-- Embeds `ad::Float::cos` (autograd.h:230-233). -/
def cosF (o : MathOracle) (a : AdExpr) : AdExpr :=
  if a.isNoneFn then leaf 0 (o.cosFn a.val) false else cosN a (o.cosFn a.val)

/-- The gradient store: slot `id` of every `Ctx`, all initialized to
zero at construction. -/
def Store := ℕ → ℚ

def zeroStore : Store := fun _ => 0

def Store.upd (σ : Store) (id : ℕ) (g : ℚ) : Store :=
  fun j => if j = id then g else σ j

/-- The reverse traversal (autograd.h:279-323): dispatch on the backward
descriptor.  `AccBackwardFn` adds the incoming gradient to its own grad
slot; `NoneBackwardFn` drops it; each derived descriptor forwards the
local partial derivatives to its parents (left first, then right).
`DivBackwardFn::backward` re-checks the denominator and aborts on zero,
modelled by `Option`. -/
def backward (o : MathOracle) : AdExpr → ℚ → Store → Option Store
  | leaf id _ true, g, σ => some (σ.upd id (σ id + g))
  | leaf _ _ false, _, σ => some σ
  | addN l r _, g, σ => (backward o l g σ).bind (backward o r g)
  | subN l r _, g, σ => (backward o l g σ).bind (backward o r (-g))
  | mulN l r _, g, σ =>
      (backward o l (g * r.val) σ).bind (backward o r (g * l.val))
  | divN l r _, g, σ =>
      if r.val = 0 then none
      else (backward o l (g / r.val) σ).bind
             (backward o r (-g * l.val / (r.val * r.val)))
  | negN a _, g, σ => backward o a (-g) σ
  | powN a k _, g, σ => backward o a (g * k * o.powFn a.val (k - 1)) σ
  | sinN a _, g, σ => backward o a (g * o.cosFn a.val) σ
  | cosN a _, g, σ => backward o a (g * -o.sinFn a.val) σ

/-- Embeds `ad::Float::requires_grad(bool)` (autograd.h:170-183): fatal on a
non-leaf; on a leaf, `true` turns an inert leaf accumulating (and leaves
an accumulating leaf unchanged), while `false` unconditionally installs
`NoneBackwardFn`.  The `Ctx` (and hence the grad-slot identity) is
preserved. -/
def requiresGrad (rg : Bool) : AdExpr → Except Err AdExpr
  | leaf id v _ =>
      if rg then .ok (leaf id v true)
      else .ok (leaf id v false)
  | e => if e.isLeafE then .ok e else .error .fatalRG

end AdExpr

/-!
## Materials and BSDF lobes (material.h, bsdf.h, bsdf.cc)
-/

/-- The three concrete lobes (bsdf.h). -/
inductive Lobe where
  | diffuse
  | specular
  | refractive
deriving DecidableEq, Repr

/-- Value level of `Material` (material.h): the emission, the three lobe
albedos, the refractive indices, and the roulette probabilities fixed by
the constructor. -/
structure Materialq where
  emission : Vec3q
  kd : Vec3q
  ks : Vec3q
  kr : Vec3q
  n1v : ℚ
  n2v : ℚ
  probD : ℚ
  probS : ℚ
  probR : ℚ
deriving DecidableEq, Repr

/-- The `Material` constructor (material.h:12-30): probabilities are the
max channels of the albedos; when they sum above 1 they are renormalized
and each albedo is rescaled by the same factor.  The rescaling division
is by `total > 1`, hence nonzero. -/
def mkMaterial (emission kd ks kr : Vec3q) (n1v n2v : ℚ) : Materialq :=
  let pd := vmax kd
  let ps := vmax ks
  let pr := vmax kr
  if 1 < pd + ps + pr then
    let total := pd + ps + pr
    { emission := emission, kd := smul kd (1 / total), ks := smul ks (1 / total),
      kr := smul kr (1 / total), n1v := n1v, n2v := n2v,
      probD := pd / total, probS := ps / total, probR := pr / total }
  else
    { emission := emission, kd := kd, ks := ks, kr := kr, n1v := n1v, n2v := n2v,
      probD := pd, probS := ps, probR := pr }

/-- Embeds `Material::rr` (material.h:34-46) applied to the drawn uniform `p`:
returns the selected lobe and its roulette probability, or `none` for
absorption. -/
def rrSelect (m : Materialq) (p : ℚ) : Option (Lobe × ℚ) :=
  if p < m.probD then some (.diffuse, m.probD)
  else if p < m.probD + m.probS then some (.specular, m.probS)
  else if p < m.probD + m.probS + m.probR then some (.refractive, m.probR)
  else none

/-- Embeds `reflect` (bsdf.cc:4): `wo - n * 2.0 * n.dot(wo)`. -/
def reflectQ (wo n : Vec3q) : Vec3q := sub wo (smul (smul n 2) (dot n wo))

/-- Embeds `refract` (bsdf.cc:7-26): Snell refraction with fallback to
reflection on total internal reflection; `eta = n1 / n2` goes through
the zero-checked `Float` division. -/
def refractQ (o : MathOracle) (wo n : Vec3q) (n1v n2v : ℚ) : Except Err Vec3q := do
  let eta ← fdiv n1v n2v
  let cosThetaI := dot n wo
  let sin2ThetaT := eta * eta * (1 - cosThetaI * cosThetaI)
  if 1 < sin2ThetaT then return reflectQ wo n
  else
    let cosThetaT := o.sqrtFn (1 - sin2ThetaT)
    return add (smul wo eta) (smul n (eta * cosThetaI - cosThetaT))

/-- Embeds `DiffuseBSDF::sample` (bsdf.cc:28-45): cosine-hemisphere sampling
around `n` from the two uniform draws `u1` (for `theta`) and `u2` (for
`phi`); the tangent-basis construction divides by the stable axis norm
through the zero-checked division. -/
def diffuseSample (o : MathOracle) (n : Vec3q) (u1 u2 : ℚ) : Except Err Vec3q := do
  let theta := o.acosFn (o.sqrtFn (1 - u1))
  let phi := 2 * o.piV * u2
  let z := n
  let xv ← if |n.x| > |n.y| then
      divS ⟨-n.z, 0, n.x⟩ (o.sqrtFn (n.x * n.x + n.z * n.z))
    else
      divS ⟨0, n.z, -n.y⟩ (o.sqrtFn (n.y * n.y + n.z * n.z))
  let yv := cross z xv
  return add (add (smul (smul xv (o.sinFn theta)) (o.cosFn phi))
                  (smul (smul yv (o.sinFn theta)) (o.sinFn phi)))
             (smul z (o.cosFn theta))

/-- Embeds `BSDF::evaluate` dispatch (bsdf.h:23, bsdf.cc:47-48, bsdf.cc:56-58):
diffuse returns `k * M_1_PI`; specular and refractive compare `wi`
against their deterministic direction. -/
def evalLobe (o : MathOracle) (m : Materialq) :
    Lobe → Vec3q → Vec3q → Vec3q → Except Err Vec3q
  | .diffuse, _, _, _ => .ok (smul m.kd o.invPiV)
  | .specular, wo, wi, n =>
      .ok (if wi = reflectQ (neg wo) n then m.ks else vzero)
  | .refractive, wo, wi, n => do
      let rf ← refractQ o (neg wo) n m.n1v m.n2v
      return (if wi = rf then m.kr else vzero)

/-- Embeds `BSDF::sample` dispatch (bsdf.cc:28, 51, 60): diffuse consumes two
uniform draws at cursor `i`; specular and refractive consume none. -/
def sampleLobe (o : MathOracle) (m : Materialq) :
    Lobe → Vec3q → Vec3q → (ℕ → ℚ) → ℕ → Except Err (Vec3q × ℕ)
  | .diffuse, _, n, f, i => do
      let wi ← diffuseSample o n (f i) (f (i + 1))
      return (wi, i + 2)
  | .specular, wo, n, _, i => .ok (reflectQ (neg wo) n, i)
  | .refractive, wo, n, _, i => do
      let wi ← refractQ o (neg wo) n m.n1v m.n2v
      return (wi, i)

/-- Embeds `BSDF::pdf`: every lobe bakes the cancellation and returns 1
(bsdf.h:28, 40, 53). -/
def pdfLobe (_ : Lobe) : ℚ := 1

/-- Embeds `BSDF::cosThetaI`: every lobe returns 1 (bsdf.h:29, 42, 55). -/
def cosThetaILobe (_ : Lobe) : ℚ := 1

/-!
## Objects and the scene (objects.h, objects.cc)
-/

/-- Embeds `ObjectHit` (objects.h:7-14), minus the material reference, which is
attached by `Scene::intersect`. -/
structure Hitq where
  p : Vec3q
  n : Vec3q
  wo : Vec3q
  t : ℚ
  intoB : Bool
deriving DecidableEq, Repr

/-- Embeds `std::numeric_limits<float>::epsilon()` used by the triangle test. -/
def fltEps : ℚ := 1 / 2 ^ 23

/-- Embeds `Sphere::intersect` (objects.cc:3-32).  `t0 = c' / q` goes through
the zero-checked `Float` division and aborts when `q = 0`; the surface
normal normalization aborts when the oracle square root of its squared
norm is zero. -/
def sphereIntersect (o : MathOracle) (c : Vec3q) (r : ℚ) (ray : Rayq) :
    Except Err (Option Hitq) :=
  let f := sub ray.o c
  let b := dot (neg f) ray.d
  let cc := dot f f - r * r
  let l := add f (smul ray.d b)
  let d2 := r * r - dot l l
  if d2 < 0 then .ok none
  else do
    let q := b + signQ b * o.sqrtFn d2
    let t0 ← fdiv cc q
    let t1 := q
    let t0s := if t1 < t0 then t1 else t0
    let t1s := if t1 < t0 then t0 else t1
    if t1s ≤ 0 then .ok none
    else
      let t := if t0s ≤ 0 then t1s else t0s
      let hp := rayAt ray t
      let hn ← normalize o (sub hp c)
      return some { p := hp, n := hn, wo := neg ray.d, t := t,
                    intoB := decide (dot hn ray.d < 0) }

/-- Embeds `Triangle::intersect` (objects.cc:35-83), Möller-Trumbore with the
pre-stored face normal; `inv_det = 1.0 / det` goes through the
zero-checked division (the epsilon rejection makes `det` nonzero). -/
def triangleIntersect (v0 v1 v2 nrm : Vec3q) (ray : Rayq) :
    Except Err (Option Hitq) :=
  let e1 := sub v1 v0
  let e2 := sub v2 v0
  let rxe2 := cross ray.d e2
  let det := dot e1 rxe2
  if -fltEps < det ∧ det < fltEps then .ok none
  else do
    let invDet ← fdiv 1 det
    let b := sub ray.o v0
    let u := dot b rxe2 * invDet
    if u < 0 ∨ 1 < u then .ok none
    else
      let rxe1 := cross b e1
      let v := dot ray.d rxe1 * invDet
      if v < 0 ∨ 1 < u + v then .ok none
      else
        let t := dot e2 rxe1 * invDet
        if t < fltEps then .ok none
        else
          return some { p := rayAt ray t, n := nrm, wo := neg ray.d, t := t,
                        intoB := decide (dot nrm ray.d < 0) }

/-- A scene primitive with its material (`Sphere`, `Triangle` in
objects.h). -/
inductive Objq where
  | sphereO (c : Vec3q) (r : ℚ) (mat : Materialq)
  | triO (v0 v1 v2 nrm : Vec3q) (mat : Materialq)
deriving DecidableEq, Repr

/-- The material shared reference of a primitive (objects.h:25). -/
def Objq.matOf : Objq → Materialq
  | .sphereO _ _ m => m
  | .triO _ _ _ _ m => m

/-- Embeds `IObject::intersect` virtual dispatch. -/
def objIntersect (o : MathOracle) (ob : Objq) (ray : Rayq) :
    Except Err (Option Hitq) :=
  match ob with
  | .sphereO c r _ => sphereIntersect o c r ray
  | .triO v0 v1 v2 nrm _ => triangleIntersect v0 v1 v2 nrm ray

/-- Embeds `PointLight` (objects.h:58-64). -/
structure PointLightq where
  p : Vec3q
  pow : Vec3q
deriving DecidableEq, Repr

/-- Embeds `Scene` (objects.h:66-78): ordered primitives and point lights. -/
structure Sceneq where
  objects : List Objq
  lights : List PointLightq
deriving DecidableEq, Repr

/-- The best-hit update of the `Scene::intersect` loop (objects.cc:91-97):
a new hit replaces the running best exactly when its `t` is strictly
smaller; the `FLT_MAX` initial bound is idealized as "no hit yet", so
the first hit always wins.  The winning primitive's material is
attached. -/
def betterHit (h : Option Hitq) (mo : Materialq)
    (best : Option (Hitq × Materialq)) : Option (Hitq × Materialq) :=
  match h, best with
  | some hh, some bb => if hh.t < bb.1.t then some (hh, mo) else some bb
  | some hh, none => some (hh, mo)
  | none, bb => bb

/-- The loop of `Scene::intersect` (objects.cc:85-102): linear scan in
insertion order. -/
def sceneIntersectAux (o : MathOracle) (ray : Rayq) :
    List Objq → Option (Hitq × Materialq) → Except Err (Option (Hitq × Materialq))
  | [], best => .ok best
  | ob :: rest, best => do
      let h ← objIntersect o ob ray
      sceneIntersectAux o ray rest (betterHit h ob.matOf best)

/-- Embeds `Scene::intersect` (objects.cc:85-102). -/
def sceneIntersect (o : MathOracle) (s : Sceneq) (ray : Rayq) :
    Except Err (Option (Hitq × Materialq)) :=
  sceneIntersectAux o ray s.objects none

/-!
## The integrator and renderer (main.cc)
-/

/-- The epsilon of the recursive bounce offset (main.cc:14). -/
def epsLi : ℚ := 1 / 10000

/-- Embeds `Li` (main.cc:13-43): the recursive radiance estimator.  The PRNG is
the stream `f` of realized `uniform` draws, consumed at cursor `i`: one
draw for the roulette, then the draws of the lobe's `sample`.  Note the
source computes only the indirect bounce; the direct next-event
contribution is a `TODO` (main.cc:40). -/
def Li (o : MathOracle) (s : Sceneq) :
    ℕ → Rayq → (ℕ → ℚ) → ℕ → Except Err (Vec3q × ℕ)
  | 0, _, _, i => .ok (vzero, i)
  | d + 1, ray, f, i => do
      let hres ← sceneIntersect o s ray
      match hres with
      | none => .ok (vzero, i)
      | some (hit, material) =>
          let le := material.emission
          if 0 < vmax le then .ok (le, i)
          else
            match rrSelect material (f i) with
            | none => .ok (vzero, i + 1)
            | some (lobe, prob) => do
                let (wi, i2) ← sampleLobe o material lobe hit.wo hit.n f (i + 1)
                let ev ← evalLobe o material lobe hit.wo wi hit.n
                let fr ← divS ev prob
                let ray2 ← mkRay o (add hit.p (smul hit.n epsLi)) wi
                let (lrec, i3) ← Li o s d ray2 f i2
                let lind ← divS (smul (vmul (smul lrec o.piV) fr)
                                      (cosThetaILobe lobe)) (pdfLobe lobe)
                return (lind, i3)

/-- Modelled from the spec: `Scene::pointLightNEE` is declared at
objects.h:69 but no definition exists anywhere in the repository, and
`Li` has only a `// TODO DIrect light` comment (main.cc:40) where the
direct contribution would be added.  Following spec section 4.7 step 7:
for each point light, trace a shadow ray from the hit point toward the
light; if no scene intersection occludes it before the light, add
`light.power * fr / r^2` where `r` is the distance to the light. -/
def neeDirectAux (o : MathOracle) (s : Sceneq) (hitp frv : Vec3q) :
    List PointLightq → Except Err Vec3q
  | [] => .ok vzero
  | l :: rest => do
      let dv := sub l.p hitp
      let r2 := normSq dv
      let sray ← mkRay o hitp dv
      let occ ← sceneIntersect o s sray
      let contrib ←
        match occ with
        | some (hh, _) =>
            if hh.t * hh.t < r2 then pure vzero else divS (vmul l.pow frv) r2
        | none => divS (vmul l.pow frv) r2
      let restv ← neeDirectAux o s hitp frv rest
      return add contrib restv

/-- Modelled from the spec (see `neeDirectAux`): the total direct
next-event contribution over the scene's point lights. -/
def neeDirect (o : MathOracle) (s : Sceneq) (hitp frv : Vec3q) :
    Except Err Vec3q :=
  neeDirectAux o s hitp frv s.lights

/-- Camera constants of `render` (main.cc:47-50). -/
def eyeV : Vec3q := ⟨0, 0, -3⟩

def forwardV : Vec3q := ⟨0, 0, 3⟩

def upV : Vec3q := ⟨0, 1, 0⟩

def leftV : Vec3q := ⟨-1, 0, 0⟩

/-- The jittered pinhole camera direction of one sample
(main.cc:61-66): `forward + left*(1-2u) + up*(1-2v)` with
`u = x/width + su`, `v = y/height + sv`. -/
def camDir (w h x y : ℕ) (su sv : ℚ) : Vec3q :=
  add (add forwardV (smul leftV (1 - 2 * ((x : ℚ) / (w : ℚ) + su))))
      (smul upV (1 - 2 * ((y : ℚ) / (h : ℚ) + sv)))

/-- The per-pixel sample loop of `render` (main.cc:57-69): each sample
draws the two jitters `su`, `sv` (the realized values of
`uniform(0, delta_u)` and `uniform(0, delta_v)`), builds the pinhole
ray, and accumulates `Li`. -/
def renderSamples (o : MathOracle) (s : Sceneq) (depth : ℕ) (w h x y : ℕ)
    (f : ℕ → ℚ) : ℕ → ℕ → Vec3q → Except Err (Vec3q × ℕ)
  | 0, i, acc => .ok (acc, i)
  | spp + 1, i, acc => do
      let ray ← mkRay o eyeV (camDir w h x y (f i) (f (i + 1)))
      let (lv, i2) ← Li o s depth ray f (i + 2)
      renderSamples o s depth w h x y f spp i2 (add acc lv)

/-- The inner `x` loop of `render` (main.cc:55-71): the row's pixels in
ascending `x`, each the sample mean `L / spp` (through the zero-checked
division). -/
def renderRow (o : MathOracle) (s : Sceneq) (depth spp w h y : ℕ)
    (f : ℕ → ℚ) : ℕ → ℕ → ℕ → Except Err (List Vec3q × ℕ)
  | 0, _, i => .ok ([], i)
  | cnt + 1, x, i => do
      let (lsum, i2) ← renderSamples o s depth w h x y f spp i vzero
      let pix ← divS lsum (spp : ℚ)
      let (rest, i3) ← renderRow o s depth spp w h y f cnt (x + 1) i2
      return (pix :: rest, i3)

/-- The outer `y` loop of `render` (main.cc:54-72). -/
def renderRows (o : MathOracle) (s : Sceneq) (depth spp w h : ℕ)
    (f : ℕ → ℚ) : ℕ → ℕ → ℕ → Except Err (List Vec3q × ℕ)
  | 0, _, i => .ok ([], i)
  | cnt + 1, y, i => do
      let (row, i2) ← renderRow o s depth spp w h y f w 0 i
      let (rest, i3) ← renderRows o s depth spp w h f cnt (y + 1) i2
      return (row ++ rest, i3)

/-- Embeds `render` (main.cc:45-73): the row-major pixel buffer
(`image[y * width + x]`) as a flat list, together with the final PRNG
cursor. -/
def renderQ (o : MathOracle) (s : Sceneq) (w h depth spp : ℕ)
    (f : ℕ → ℚ) (i : ℕ) : Except Err (List Vec3q × ℕ) :=
  renderRows o s depth spp w h f h 0 i

/-!
## The SGD optimizer (optim.h)
-/

/-- Embeds `optim::SGD::step` (optim.h:47-62) over the registered parameters as
`(value, grad)` pairs and the parallel momentum array `v`: the gradient
gets the L2 term when `lambda > 0`; with `momentum > 0` the momentum
entry is updated and added to the value, else a plain SGD update.  A
momentum update with an exhausted `v` array is out-of-bounds in the
source (parameters added after `step`, undefined per the spec) and is
modelled as leaving the remaining parameters unchanged; the theorems
require matching lengths. -/
def sgdStep (lr lam mu : ℚ) : List (ℚ × ℚ) → List ℚ → List (ℚ × ℚ) × List ℚ
  | [], vs => ([], vs)
  | (value, gr) :: ps, vs =>
      let g := if 0 < lam then gr + lam * value else gr
      if 0 < mu then
        match vs with
        | vi :: vrest =>
            let vi2 := mu * vi - lr * g
            let res := sgdStep lr lam mu ps vrest
            ((value + vi2, gr) :: res.1, vi2 :: res.2)
        | [] => ((value, gr) :: ps, [])
      else
        let res := sgdStep lr lam mu ps vs
        ((value - lr * g, gr) :: res.1, res.2)

/-- A concrete computable oracle used by the witnesses: a square-root
lookup exact on the perfect squares the witnesses touch, a power table,
constant trigonometric stubs, and rational approximations of pi. -/
def sqrtTable : ℚ → ℚ := fun q =>
  if q = 0 then 0 else if q = 1 then 1 else if q = 4 then 2
  else if q = 9 then 3 else 1

def oracle0 : MathOracle :=
  { sqrtFn := sqrtTable,
    powFn := fun v k =>
      if k = 2 then v * v else if k = 1 then v else if k = 0 then 1 else 0,
    sinFn := fun _ => 0,
    cosFn := fun _ => 1,
    acosFn := fun _ => 0,
    piV := 355 / 113,
    invPiV := 113 / 355 }

/-- The fan-out tape `L = a * a` at `a = 3` with `a` a parameter leaf
owning gradient slot 1. -/
def e0 : AdExpr := AdExpr.mulF (AdExpr.leaf 1 3 true) (AdExpr.leaf 1 3 true)

/-- The store after one `backward(1)` on `e0` from zeroed gradients. -/
def sigA : AdExpr.Store :=
  (AdExpr.backward oracle0 e0 1 AdExpr.zeroStore).getD AdExpr.zeroStore

/-- The store after a second back-to-back `backward(1)` on `e0`. -/
def sigB : AdExpr.Store :=
  (AdExpr.backward oracle0 e0 1 sigA).getD AdExpr.zeroStore

/-- A concrete derived node (`AddBackwardFn` over two parameter
leaves). -/
def e3 : AdExpr := AdExpr.addN (AdExpr.leaf 0 1 true) (AdExpr.leaf 1 2 true) 3

/-- Two concrete inert leaves for the C9 witness. -/
def a0 : AdExpr := AdExpr.leaf 5 2 false

def b0 : AdExpr := AdExpr.leaf 6 4 false

/-- The loss tape `L = a * a` with the parameter leaf `a` owning
gradient slot 0, at value `v`. -/
def lossA (v : ℚ) : AdExpr :=
  AdExpr.mulF (AdExpr.leaf 0 v true) (AdExpr.leaf 0 v true)

/-- Two syntactically different but pointwise-equal draw streams. -/
def st1 : ℕ → ℚ := fun _ => 0

def st2 : ℕ → ℚ := fun n => if n = n then 0 else 1

/-- An empty scene for the determinism witness. -/
def sceneB : Sceneq := ⟨[], []⟩

/-- The local quantities of `Sphere::intersect` (objects.cc:5-15):
`f`, `b`, `c'`, `l`, `d²` and `q`, as functions of the sphere and ray. -/
def sphF (c : Vec3q) (ray : Rayq) : Vec3q := sub ray.o c

def sphB (c : Vec3q) (ray : Rayq) : ℚ := dot (neg (sphF c ray)) ray.d

def sphCC (c : Vec3q) (r : ℚ) (ray : Rayq) : ℚ :=
  dot (sphF c ray) (sphF c ray) - r * r

def sphL (c : Vec3q) (ray : Rayq) : Vec3q :=
  add (sphF c ray) (smul ray.d (sphB c ray))

def sphD2 (c : Vec3q) (r : ℚ) (ray : Rayq) : ℚ :=
  r * r - dot (sphL c ray) (sphL c ray)

def sphQv (o : MathOracle) (c : Vec3q) (r : ℚ) (ray : Rayq) : ℚ :=
  sphB c ray + signQ (sphB c ray) * o.sqrtFn (sphD2 c r ray)

/-- The candidate roots `t0 = c'/q`, `t1 = q` of `Sphere::intersect`
(objects.cc:17-18). -/
def sphT0 (o : MathOracle) (c : Vec3q) (r : ℚ) (ray : Rayq) : ℚ :=
  sphCC c r ray / sphQv o c r ray

def sphT1 (o : MathOracle) (c : Vec3q) (r : ℚ) (ray : Rayq) : ℚ :=
  sphQv o c r ray

/-- The ordered candidates after the swap (objects.cc:20). -/
def sphT0s (o : MathOracle) (c : Vec3q) (r : ℚ) (ray : Rayq) : ℚ :=
  if sphT1 o c r ray < sphT0 o c r ray then sphT1 o c r ray else sphT0 o c r ray

def sphT1s (o : MathOracle) (c : Vec3q) (r : ℚ) (ray : Rayq) : ℚ :=
  if sphT1 o c r ray < sphT0 o c r ray then sphT0 o c r ray else sphT1 o c r ray

/-- The recorded parameter `hit.t` (objects.cc:23). -/
def sphTsel (o : MathOracle) (c : Vec3q) (r : ℚ) (ray : Rayq) : ℚ :=
  if sphT0s o c r ray ≤ 0 then sphT1s o c r ray else sphT0s o c r ray

/-- The hit position (objects.cc:25). -/
def sphHitP (o : MathOracle) (c : Vec3q) (r : ℚ) (ray : Rayq) : Vec3q :=
  rayAt ray (sphTsel o c r ray)

/-- The recorded normal `(p - c).normalize()` (objects.cc:26), spelled
with the oracle square root. -/
def sphNrm (o : MathOracle) (c : Vec3q) (r : ℚ) (ray : Rayq) : Vec3q :=
  smul (sub (sphHitP o c r ray) c)
    (1 / o.sqrtFn (normSq (sub (sphHitP o c r ray) c)))

/-- A scene in which every primitive's material has zero emission. -/
def noEmit (s : Sceneq) : Prop :=
  ∀ ob ∈ s.objects, (Objq.matOf ob).emission = vzero

/-- A purely diffuse gray material (emission zero, `kd = (1/2,1/2,1/2)`,
roulette probability 1/2). -/
def matDiffuse : Materialq :=
  mkMaterial ⟨0, 0, 0⟩ ⟨1/2, 1/2, 1/2⟩ ⟨0, 0, 0⟩ ⟨0, 0, 0⟩ 1 (3/2)

/-- A triangle in the plane `z = 1` facing the camera. -/
def triBack : Objq :=
  .triO ⟨-1, -1, 1⟩ ⟨1, -1, 1⟩ ⟨-1, 1, 1⟩ ⟨0, 0, -1⟩ matDiffuse

/-- A point light at the origin with unit power. -/
def light1 : PointLightq := ⟨⟨0, 0, 0⟩, ⟨1, 1, 1⟩⟩

/-- The one-triangle scene with a point light. -/
def scene1 : Sceneq := ⟨[triBack], [light1]⟩

/-- The same scene with no lights. -/
def sceneNoLight : Sceneq := ⟨[triBack], []⟩

/-- A ray from `(0,0,-1)` straight at the triangle; it hits at `t = 2`,
at the point `(0,0,1)`. -/
def ray1 : Rayq := ⟨⟨0, 0, -1⟩, ⟨0, 0, 1⟩⟩

/-- The throughput `fr = evaluate / prob` of the diffuse lobe at that
hit under `oracle0`: `((1/2) * (113/355)) / (1/2)` per channel. -/
def fr1 : Vec3q := ⟨113/355, 113/355, 113/355⟩

/-!
## Theorems: the autograd tape
-/

/-- Helper for the binary cases of `backward_shift`: a sequenced
backward over two parents shifts by the same store-independent delta. -/
theorem bindShiftAux (o : MathOracle) (l r : AdExpr) (gl gr : ℚ)
    (ihl : ∀ g σ, AdExpr.backward o l g σ =
      (AdExpr.backward o l g AdExpr.zeroStore).map (fun δ j => σ j + δ j))
    (ihr : ∀ g σ, AdExpr.backward o r g σ =
      (AdExpr.backward o r g AdExpr.zeroStore).map (fun δ j => σ j + δ j))
    (σ : AdExpr.Store) :
    ((AdExpr.backward o l gl σ).bind (AdExpr.backward o r gr)) =
      (((AdExpr.backward o l gl AdExpr.zeroStore).bind (AdExpr.backward o r gr)).map
        (fun δ j => σ j + δ j)) := by
  rw [ihl gl σ]
  cases hl : AdExpr.backward o l gl AdExpr.zeroStore with
  | none => simp
  | some δl =>
      simp only [Option.map_some', Option.some_bind]
      rw [ihr gr fun j => σ j + δl j, ihr gr δl]
      cases hr : AdExpr.backward o r gr AdExpr.zeroStore with
      | none => simp
      | some δr =>
          simp only [Option.map_some', Option.map_map]
          refine congrArg _ (funext fun j => ?_)
          simp [add_assoc]

/-- The effect of one `backward` call is to add a store-independent
delta to every gradient slot: the traversal only ever executes `+=` on
accumulating-leaf slots (autograd.h:279-281), so the deposit does not
depend on the gradients already stored. -/
theorem backward_shift (o : MathOracle) (e : AdExpr) :
    ∀ (g : ℚ) (σ : AdExpr.Store),
      AdExpr.backward o e g σ =
        (AdExpr.backward o e g AdExpr.zeroStore).map (fun δ j => σ j + δ j) := by
  induction e with
  | leaf id v acc =>
      intro g σ
      cases acc with
      | false => simp [AdExpr.backward, AdExpr.zeroStore]
      | true =>
          simp only [AdExpr.backward, Option.map_some']
          refine congrArg _ (funext fun j => ?_)
          by_cases hj : j = id <;>
            simp [AdExpr.Store.upd, AdExpr.zeroStore, hj]
  | addN l r v ihl ihr => intro g σ; exact bindShiftAux o l r g g ihl ihr σ
  | subN l r v ihl ihr => intro g σ; exact bindShiftAux o l r g (-g) ihl ihr σ
  | mulN l r v ihl ihr =>
      intro g σ
      exact bindShiftAux o l r (g * r.val) (g * l.val) ihl ihr σ
  | divN l r v ihl ihr =>
      intro g σ
      by_cases hr0 : r.val = 0
      · simp [AdExpr.backward, hr0]
      · simp only [AdExpr.backward, if_neg hr0]
        exact bindShiftAux o l r (g / r.val)
          (-g * l.val / (r.val * r.val)) ihl ihr σ
  | negN a v ih => intro g σ; exact ih (-g) σ
  | powN a k v ih => intro g σ; exact ih (g * k * o.powFn a.val (k - 1)) σ
  | sinN a v ih => intro g σ; exact ih (g * o.cosFn a.val) σ
  | cosN a v ih => intro g σ; exact ih (g * -o.sinFn a.val) σ

/-- C2: `backward(1)` on a scalar `L` adds the store-independent deposit
`δ` (the derivative `∂L/∂p` computed by the reverse traversal from a
zeroed store) to every gradient slot, rather than overwriting it; hence
two back-to-back `backward(1)` calls without `zero_grad` leave every
slot — in particular every reachable leaf-accumulating scalar's slot —
with exactly twice the single-call deposit. -/
theorem backward_accumulates_grads (o : MathOracle) (e : AdExpr)
    (σ σ1 σ2 δ : AdExpr.Store)
    (h1 : AdExpr.backward o e 1 σ = some σ1)
    (h0 : AdExpr.backward o e 1 AdExpr.zeroStore = some δ)
    (h2 : AdExpr.backward o e 1 σ1 = some σ2) :
    (∀ j, σ1 j = σ j + δ j) ∧ (∀ j, σ2 j = σ j + 2 * δ j) := by
  have hs1 := backward_shift o e 1 σ
  rw [h1, h0] at hs1
  simp only [Option.map_some', Option.some_inj] at hs1
  have hm1 : ∀ j, σ1 j = σ j + δ j := fun j => congrFun hs1 j
  have hs2 := backward_shift o e 1 σ1
  rw [h2, h0] at hs2
  simp only [Option.map_some', Option.some_inj] at hs2
  refine ⟨hm1, fun j => ?_⟩
  rw [congrFun hs2 j, hm1 j]
  ring

/-- Witness for C2 at the concrete fan-out tape `e0`: the first call
adds the deposit to the zero store and the second call doubles it
(`dL/da = 2 * 3 = 6` in slot 1). -/
theorem backward_accumulates_grads_w :
    sigA 1 = AdExpr.zeroStore 1 + sigA 1 ∧
    sigB 1 = AdExpr.zeroStore 1 + 2 * sigA 1 ∧
    sigA 1 = 6 :=
  ⟨(backward_accumulates_grads oracle0 e0 AdExpr.zeroStore sigA sigB sigA
      rfl rfl rfl).1 1,
   (backward_accumulates_grads oracle0 e0 AdExpr.zeroStore sigA sigB sigA
      rfl rfl rfl).2 1,
   by norm_num [sigA, e0, AdExpr.backward, AdExpr.mulF, AdExpr.isNoneFn,
     AdExpr.val, AdExpr.Store.upd, AdExpr.zeroStore]⟩

/-- C3 counterexample: calling `requires_grad(false)` on a
leaf-accumulating scalar does re-classify it as leaf-inert — the
`else` branch of `ad::Float::requires_grad` (autograd.h:180-182)
installs `none_fn` unconditionally on any leaf, contradicting the
claim that a leaf-accumulating scalar is never re-classified. -/
theorem requires_grad_demotes_acc_leaf :
    AdExpr.requiresGrad false (AdExpr.leaf 0 5 true) =
      .ok (AdExpr.leaf 0 5 false) ∧
    AdExpr.isAccFn (AdExpr.leaf 0 (5 : ℚ) true) = true ∧
    AdExpr.isNoneFn (AdExpr.leaf 0 (5 : ℚ) false) = true :=
  ⟨rfl, rfl, rfl⟩

/-- C3 (amended): `requires_grad` on a derived (non-leaf) tracked scalar
is fatal; on leaves, `requires_grad(true)` toggles an inert leaf to
accumulating and leaves an accumulating leaf unchanged, while
`requires_grad(false)` always resets the leaf to inert — including
re-classifying an accumulating leaf as inert. -/
theorem requires_grad_rules :
    (∀ id v, AdExpr.requiresGrad true (AdExpr.leaf id v false) =
      .ok (AdExpr.leaf id v true)) ∧
    (∀ id v, AdExpr.requiresGrad true (AdExpr.leaf id v true) =
      .ok (AdExpr.leaf id v true)) ∧
    (∀ id v, AdExpr.requiresGrad false (AdExpr.leaf id v true) =
      .ok (AdExpr.leaf id v false)) ∧
    (∀ id v, AdExpr.requiresGrad false (AdExpr.leaf id v false) =
      .ok (AdExpr.leaf id v false)) ∧
    (∀ e b, AdExpr.isLeafE e = false →
      AdExpr.requiresGrad b e = .error Err.fatalRG) := by
  refine ⟨fun id v => rfl, fun id v => rfl, fun id v => rfl, fun id v => rfl,
    fun e b h => ?_⟩
  cases e with
  | leaf i v acc =>
      cases acc <;>
        simp [AdExpr.isLeafE, AdExpr.isAccFn, AdExpr.isNoneFn] at h
  | addN l r v => simp [AdExpr.requiresGrad, AdExpr.isLeafE, AdExpr.isAccFn,
      AdExpr.isNoneFn]
  | subN l r v => simp [AdExpr.requiresGrad, AdExpr.isLeafE, AdExpr.isAccFn,
      AdExpr.isNoneFn]
  | mulN l r v => simp [AdExpr.requiresGrad, AdExpr.isLeafE, AdExpr.isAccFn,
      AdExpr.isNoneFn]
  | divN l r v => simp [AdExpr.requiresGrad, AdExpr.isLeafE, AdExpr.isAccFn,
      AdExpr.isNoneFn]
  | negN a v => simp [AdExpr.requiresGrad, AdExpr.isLeafE, AdExpr.isAccFn,
      AdExpr.isNoneFn]
  | powN a k v => simp [AdExpr.requiresGrad, AdExpr.isLeafE, AdExpr.isAccFn,
      AdExpr.isNoneFn]
  | sinN a v => simp [AdExpr.requiresGrad, AdExpr.isLeafE, AdExpr.isAccFn,
      AdExpr.isNoneFn]
  | cosN a v => simp [AdExpr.requiresGrad, AdExpr.isLeafE, AdExpr.isAccFn,
      AdExpr.isNoneFn]

/-- Witness for C3's amended theorem: the fatal branch fires on the
concrete derived node `e3`. -/
theorem requires_grad_rules_w :
    AdExpr.isLeafE e3 = false ∧
    AdExpr.requiresGrad true e3 = .error Err.fatalRG :=
  ⟨rfl, requires_grad_rules.2.2.2.2 e3 true rfl⟩

/-- An inert-leaf operand is exactly a `leaf _ _ false`. -/
theorem isNoneFn_shape (a : AdExpr) (ha : a.isNoneFn = true) :
    ∃ i v, a = AdExpr.leaf i v false := by
  cases a with
  | leaf i v acc =>
      cases acc with
      | false => exact ⟨i, v, rfl⟩
      | true => simp [AdExpr.isNoneFn] at ha
  | addN l r v => simp [AdExpr.isNoneFn] at ha
  | subN l r v => simp [AdExpr.isNoneFn] at ha
  | mulN l r v => simp [AdExpr.isNoneFn] at ha
  | divN l r v => simp [AdExpr.isNoneFn] at ha
  | negN a v => simp [AdExpr.isNoneFn] at ha
  | powN a k v => simp [AdExpr.isNoneFn] at ha
  | sinN a v => simp [AdExpr.isNoneFn] at ha
  | cosN a v => simp [AdExpr.isNoneFn] at ha

/-- C9: on operands that are all leaf-inert, the short-circuited result
of every arithmetic operation (an inert leaf carrying the computed
value, with the no-op `NoneBackwardFn`) is observationally equivalent to
the derived tape node the `else` branch of the operator would build:
the stored value coincides, and every subsequent backward traversal
leaves every gradient store — in particular every leaf-accumulating
slot — exactly the same.  For division, a zero denominator aborts both
constructions identically before either is built. -/
theorem short_circuit_equiv (o : MathOracle) (a b : AdExpr)
    (ha : a.isNoneFn = true) (hb : b.isNoneFn = true) :
    ((AdExpr.addF a b).val = (AdExpr.addN a b (a.val + b.val)).val ∧
     ∀ g σ, AdExpr.backward o (AdExpr.addF a b) g σ =
       AdExpr.backward o (AdExpr.addN a b (a.val + b.val)) g σ) ∧
    ((AdExpr.subF a b).val = (AdExpr.subN a b (a.val - b.val)).val ∧
     ∀ g σ, AdExpr.backward o (AdExpr.subF a b) g σ =
       AdExpr.backward o (AdExpr.subN a b (a.val - b.val)) g σ) ∧
    ((AdExpr.mulF a b).val = (AdExpr.mulN a b (a.val * b.val)).val ∧
     ∀ g σ, AdExpr.backward o (AdExpr.mulF a b) g σ =
       AdExpr.backward o (AdExpr.mulN a b (a.val * b.val)) g σ) ∧
    ((b.val = 0 → AdExpr.divF a b = .error .divByZero) ∧
     (b.val ≠ 0 →
       AdExpr.divF a b = .ok (AdExpr.leaf 0 (a.val / b.val) false) ∧
       (AdExpr.leaf 0 (a.val / b.val) false).val =
         (AdExpr.divN a b (a.val / b.val)).val ∧
       ∀ g σ, AdExpr.backward o (AdExpr.leaf 0 (a.val / b.val) false) g σ =
         AdExpr.backward o (AdExpr.divN a b (a.val / b.val)) g σ)) ∧
    ((AdExpr.negF a).val = (AdExpr.negN a (-a.val)).val ∧
     ∀ g σ, AdExpr.backward o (AdExpr.negF a) g σ =
       AdExpr.backward o (AdExpr.negN a (-a.val)) g σ) ∧
    (∀ k, (AdExpr.powF o a k).val = (AdExpr.powN a k (o.powFn a.val k)).val ∧
     ∀ g σ, AdExpr.backward o (AdExpr.powF o a k) g σ =
       AdExpr.backward o (AdExpr.powN a k (o.powFn a.val k)) g σ) ∧
    ((AdExpr.sinF o a).val = (AdExpr.sinN a (o.sinFn a.val)).val ∧
     ∀ g σ, AdExpr.backward o (AdExpr.sinF o a) g σ =
       AdExpr.backward o (AdExpr.sinN a (o.sinFn a.val)) g σ) ∧
    ((AdExpr.cosF o a).val = (AdExpr.cosN a (o.cosFn a.val)).val ∧
     ∀ g σ, AdExpr.backward o (AdExpr.cosF o a) g σ =
       AdExpr.backward o (AdExpr.cosN a (o.cosFn a.val)) g σ) := by
  obtain ⟨ia, va, rfl⟩ := isNoneFn_shape a ha
  obtain ⟨ib, vb, rfl⟩ := isNoneFn_shape b hb
  refine ⟨⟨rfl, fun g σ => rfl⟩, ⟨rfl, fun g σ => rfl⟩, ⟨rfl, fun g σ => rfl⟩,
    ⟨fun h0 => ?_, fun h0 => ?_⟩,
    ⟨rfl, fun g σ => rfl⟩, fun k => ⟨rfl, fun g σ => rfl⟩,
    ⟨rfl, fun g σ => rfl⟩, ⟨rfl, fun g σ => rfl⟩⟩
  · have h0v : vb = 0 := by simpa [AdExpr.val] using h0
    simp only [AdExpr.divF, AdExpr.val]
    rw [if_pos h0v]
  · have h0v : vb ≠ 0 := by simpa [AdExpr.val] using h0
    refine ⟨?_, rfl, fun g σ => ?_⟩
    · simp only [AdExpr.divF, AdExpr.val]
      rw [if_neg h0v]
      simp [AdExpr.isNoneFn]
    · simp only [AdExpr.backward, AdExpr.val, Option.some_bind]
      rw [if_neg h0v]

/-- Witness for C9 at the concrete inert leaves `a0`, `b0`: the add and
div conjuncts instantiated. -/
theorem short_circuit_equiv_w :
    AdExpr.isNoneFn a0 = true ∧ AdExpr.isNoneFn b0 = true ∧
    AdExpr.val b0 ≠ 0 ∧
    AdExpr.backward oracle0 (AdExpr.addF a0 b0) 1 AdExpr.zeroStore =
      AdExpr.backward oracle0 (AdExpr.addN a0 b0 (a0.val + b0.val)) 1
        AdExpr.zeroStore ∧
    AdExpr.divF a0 b0 = .ok (AdExpr.leaf 0 (a0.val / b0.val) false) :=
  ⟨rfl, rfl, by norm_num [b0, AdExpr.val],
   (short_circuit_equiv oracle0 a0 b0 rfl rfl).1.2 1 AdExpr.zeroStore,
   ((short_circuit_equiv oracle0 a0 b0 rfl rfl).2.2.2.1.2
     (by norm_num [b0, AdExpr.val])).1⟩

/-!
## Theorems: the SGD optimizer
-/

/-- The conditional L2 term of `step` (optim.h:52-53) equals the
unconditional form `g = grad + lambda * value` whenever `lambda ≥ 0`. -/
theorem sgdGradTerm (lam value gr : ℚ) (hlam : 0 ≤ lam) :
    (if 0 < lam then gr + lam * value else gr) = gr + lam * value := by
  rcases eq_or_lt_of_le hlam with h | h
  · rw [if_neg (by rw [← h]; exact lt_irrefl 0), ← h]
    ring
  · rw [if_pos h]

/-- Shows `SGD::step` with positive momentum: every parameter and momentum
entry follows `v <- mu*v - lr*g; value += v` with `g = grad + lam*value`. -/
theorem sgdStep_momentum (lr lam mu : ℚ) (hlam : 0 ≤ lam) (hmu : 0 < mu) :
    ∀ (ps : List (ℚ × ℚ)) (vs : List ℚ), ps.length = vs.length →
      sgdStep lr lam mu ps vs =
        (List.zipWith (fun p vi =>
           (p.1 + (mu * vi - lr * (p.2 + lam * p.1)), p.2)) ps vs,
         List.zipWith (fun p vi => mu * vi - lr * (p.2 + lam * p.1)) ps vs) := by
  intro ps
  induction ps with
  | nil =>
      intro vs hlen
      have : vs = [] := List.eq_nil_of_length_eq_zero hlen.symm
      subst this
      rfl
  | cons p ps ih =>
      intro vs hlen
      cases vs with
      | nil => simp at hlen
      | cons vi vrest =>
          obtain ⟨value, gr⟩ := p
          simp only [sgdStep, sgdGradTerm lam value gr hlam, if_pos hmu]
          have hrec := ih vrest (by simpa using hlen)
          rw [hrec]
          simp [List.zipWith]

/-- Shows `SGD::step` with zero momentum: plain `value -= lr*g` with
`g = grad + lam*value`; the momentum array is untouched. -/
theorem sgdStep_plain (lr lam : ℚ) (hlam : 0 ≤ lam) :
    ∀ (ps : List (ℚ × ℚ)) (vs : List ℚ),
      sgdStep lr lam 0 ps vs =
        (ps.map (fun p => (p.1 - lr * (p.2 + lam * p.1), p.2)), vs) := by
  intro ps
  induction ps with
  | nil => intro vs; rfl
  | cons p ps ih =>
      intro vs
      obtain ⟨value, gr⟩ := p
      simp only [sgdStep, sgdGradTerm lam value gr hlam, lt_irrefl 0, if_false]
      rw [ih vs]
      simp [List.map]

/-- C5: `SGD::step` forms `g = grad + lambda * value` per parameter (for
the nonnegative `lambda` the L2 coefficient is), then updates
`v <- mu*v - lr*g; value += v` when `mu > 0` and `value -= lr*g` when
`mu = 0`; concretely, for `a = 5`, `L = a^2`, `lr = 0.1`, no momentum
and no L2, one backward yields grad 10 and the step sets `a = 4`, while
with momentum `0.9` two backward/step iterations give `v1 = -1, a1 = 4`
then grad 8, `v2 = -1.7, a2 = 2.3`. -/
theorem sgd_step_spec :
    (∀ lr lam mu (ps : List (ℚ × ℚ)) vs, 0 ≤ lam → 0 < mu →
       ps.length = vs.length →
       sgdStep lr lam mu ps vs =
         (List.zipWith (fun p vi =>
            (p.1 + (mu * vi - lr * (p.2 + lam * p.1)), p.2)) ps vs,
          List.zipWith (fun p vi => mu * vi - lr * (p.2 + lam * p.1)) ps vs)) ∧
    (∀ lr lam (ps : List (ℚ × ℚ)) vs, 0 ≤ lam →
       sgdStep lr lam 0 ps vs =
         (ps.map (fun p => (p.1 - lr * (p.2 + lam * p.1), p.2)), vs)) ∧
    (AdExpr.backward oracle0 (lossA 5) 1 AdExpr.zeroStore).map (fun σ => σ 0) =
      some 10 ∧
    sgdStep (1 / 10) 0 0 [(5, 10)] [] = ([(4, 10)], []) ∧
    sgdStep (1 / 10) 0 (9 / 10) [(5, 10)] [0] = ([(4, 10)], [-1]) ∧
    (AdExpr.backward oracle0 (lossA 4) 1 AdExpr.zeroStore).map (fun σ => σ 0) =
      some 8 ∧
    sgdStep (1 / 10) 0 (9 / 10) [(4, 8)] [-1] = ([(23 / 10, 8)], [-17 / 10]) := by
  refine ⟨fun lr lam mu ps vs hlam hmu hlen =>
      sgdStep_momentum lr lam mu hlam hmu ps vs hlen,
    fun lr lam ps vs hlam => sgdStep_plain lr lam hlam ps vs, ?_, ?_, ?_, ?_, ?_⟩
  · norm_num [lossA, AdExpr.backward, AdExpr.mulF, AdExpr.isNoneFn, AdExpr.val,
      AdExpr.Store.upd, AdExpr.zeroStore]
  · norm_num [sgdStep]
  · norm_num [sgdStep]
  · norm_num [lossA, AdExpr.backward, AdExpr.mulF, AdExpr.isNoneFn, AdExpr.val,
      AdExpr.Store.upd, AdExpr.zeroStore]
  · norm_num [sgdStep]

/-- Witness for C5: the momentum branch instantiated at one concrete
parameter. -/
theorem sgd_step_spec_w :
    (0 : ℚ) ≤ 0 ∧ (0 : ℚ) < 1 / 2 ∧
    sgdStep 1 0 (1 / 2) [((2 : ℚ), (3 : ℚ))] [1] =
      (List.zipWith (fun (p : ℚ × ℚ) vi =>
         (p.1 + ((1 / 2) * vi - 1 * (p.2 + 0 * p.1)), p.2)) [(2, 3)] [1],
       List.zipWith (fun (p : ℚ × ℚ) vi =>
         (1 / 2) * vi - 1 * (p.2 + 0 * p.1)) [(2, 3)] [1]) :=
  ⟨le_refl 0, by norm_num,
   sgd_step_spec.1 1 0 (1 / 2) [(2, 3)] [1] (le_refl 0) (by norm_num) rfl⟩

/-!
## Theorems: Vec3 normalization, ray construction, determinism
-/

/-- C4 counterexample: normalizing the zero vector does abort.
`norm_squared` is 0, `sqrt` (via `std::pow(0, 0.5)`) is 0, and
`Vec3::operator/` runs `1.0 / 0` through `ad::Float::operator/`, whose
zero check calls `exit(1)` (autograd.h:210-213) — no NaN vector is ever
produced. -/
theorem normalize_zero_aborts_cex :
    normalize oracle0 vzero = .error .divByZero := by
  norm_num [Vec3q.normalize, Vec3q.norm, normSq, divS, fdiv, vzero, oracle0,
    sqrtTable]

/-- C4 (amended): for every zero-length Vec3, `normalize` aborts the
process through the division-by-zero fatal error of the checked scalar
division, rather than silently producing a NaN vector (the oracle
hypothesis records that the square root of 0 is 0, as `std::pow(0,0.5)`
is). -/
theorem normalize_zero_aborts (o : MathOracle) (v : Vec3q)
    (hv : normSq v = 0) (hs : o.sqrtFn 0 = 0) :
    normalize o v = .error .divByZero := by
  simp [Vec3q.normalize, Vec3q.norm, hv, hs, divS, fdiv]

/-- Witness for C4 at the concrete zero vector and oracle. -/
theorem normalize_zero_aborts_w :
    normSq vzero = 0 ∧ oracle0.sqrtFn 0 = 0 ∧
    normalize oracle0 vzero = .error .divByZero :=
  ⟨by norm_num [normSq, vzero], by norm_num [oracle0, sqrtTable],
   normalize_zero_aborts oracle0 vzero (by norm_num [normSq, vzero])
     (by norm_num [oracle0, sqrtTable])⟩

/-- C10: the `Ray` constructor stores the normalized direction, so when
the oracle square root is exact and nonzero at the direction's squared
norm (as real `sqrt` is for any nonzero direction), the constructed
ray's direction has unit squared norm and the origin is kept. -/
theorem ray_direction_unit (o : MathOracle) (origin d : Vec3q)
    (hsq : o.sqrtFn (normSq d) * o.sqrtFn (normSq d) = normSq d)
    (hnz : o.sqrtFn (normSq d) ≠ 0) :
    mkRay o origin d = .ok ⟨origin, smul d (1 / o.sqrtFn (normSq d))⟩ ∧
    normSq (smul d (1 / o.sqrtFn (normSq d))) = 1 := by
  constructor
  · simp [mkRay, Vec3q.normalize, Vec3q.norm, divS, fdiv, hnz, Except.map]
  · set s := o.sqrtFn (normSq d) with hsdef
    have expand : normSq (smul d (1 / s)) = normSq d * ((1 / s) * (1 / s)) := by
      simp only [normSq, smul]
      ring
    rw [expand, ← hsq]
    field_simp

/-- Witness for C10: direction `(0,0,3)` whose squared norm 9 the
concrete oracle roots exactly. -/
theorem ray_direction_unit_w :
    oracle0.sqrtFn (normSq ⟨0, 0, 3⟩) * oracle0.sqrtFn (normSq ⟨0, 0, 3⟩) =
      normSq ⟨0, 0, 3⟩ ∧
    mkRay oracle0 ⟨1, 2, 3⟩ ⟨0, 0, 3⟩ =
      .ok ⟨⟨1, 2, 3⟩, smul ⟨0, 0, 3⟩ (1 / oracle0.sqrtFn (normSq ⟨0, 0, 3⟩))⟩ ∧
    normSq (smul ⟨0, 0, 3⟩ (1 / oracle0.sqrtFn (normSq ⟨0, 0, 3⟩))) = 1 :=
  ⟨by norm_num [oracle0, sqrtTable, normSq],
   (ray_direction_unit oracle0 ⟨1, 2, 3⟩ ⟨0, 0, 3⟩
     (by norm_num [oracle0, sqrtTable, normSq])
     (by norm_num [oracle0, sqrtTable, normSq])).1,
   (ray_direction_unit oracle0 ⟨1, 2, 3⟩ ⟨0, 0, 3⟩
     (by norm_num [oracle0, sqrtTable, normSq])
     (by norm_num [oracle0, sqrtTable, normSq])).2⟩

/-- C8: `render` is a deterministic function of the scene, the image
dimensions, the depth and sample counts, and the PRNG draw stream; with
a fixed seed the thread-local mt19937 produces the same draw stream, so
two renders with pointwise-equal streams produce identical pixel
buffers (and final cursors). -/
theorem render_deterministic (o : MathOracle) (s : Sceneq)
    (w h depth spp i : ℕ) (f1 f2 : ℕ → ℚ) (hf : ∀ n, f1 n = f2 n) :
    renderQ o s w h depth spp f1 i = renderQ o s w h depth spp f2 i := by
  have : f1 = f2 := funext hf
  rw [this]

/-- Witness for C8: the two streams agree pointwise and the two renders
coincide. -/
theorem render_deterministic_w :
    st1 0 = st2 0 ∧
    renderQ oracle0 sceneB 1 1 1 1 st1 0 = renderQ oracle0 sceneB 1 1 1 1 st2 0 :=
  ⟨by simp [st1, st2],
   render_deterministic oracle0 sceneB 1 1 1 1 0 st1 st2
     (fun n => by simp [st1, st2])⟩

/-!
## Theorems: sphere intersection
-/

/-- Reduction lemmas for the `Except` plumbing of the embedding. -/
@[simp] theorem exBindOk {α β : Type} (a : α) (f : α → Except Err β) :
    (Except.ok a >>= f) = f a := rfl

@[simp] theorem exBindErr {α β : Type} (e : Err) (f : α → Except Err β) :
    ((Except.error e : Except Err α) >>= f) = Except.error e := rfl

@[simp] theorem exPure {α : Type} (a : α) : (pure a : Except Err α) = Except.ok a := rfl

@[simp] theorem exMapOk {α β : Type} (g : α → β) (a : α) :
    (g <$> (Except.ok a : Except Err α)) = Except.ok (g a) := rfl

@[simp] theorem exMapErr {α β : Type} (g : α → β) (e : Err) :
    (g <$> (Except.error e : Except Err α)) = Except.error e := rfl

/-- Pushing `Except` bind through a conditional. -/
theorem bindIte {α β : Type} (c : Prop) [Decidable c] (x y : Except Err α)
    (f : α → Except Err β) :
    ((if c then x else y) >>= f) = if c then x >>= f else y >>= f := by
  split_ifs <;> rfl

/-- Shows `Sphere::intersect` reduced to its decision structure over the
named local quantities. -/
theorem sphereIntersect_reduce (o : MathOracle) (c : Vec3q) (r : ℚ) (ray : Rayq) :
    sphereIntersect o c r ray =
      (if sphD2 c r ray < 0 then .ok none
       else if sphQv o c r ray = 0 then .error .divByZero
       else if sphT1s o c r ray ≤ 0 then .ok none
       else if o.sqrtFn (normSq (sub (sphHitP o c r ray) c)) = 0 then
         .error .divByZero
       else .ok (some ⟨sphHitP o c r ray, sphNrm o c r ray, neg ray.d,
         sphTsel o c r ray, decide (dot (sphNrm o c r ray) ray.d < 0)⟩)) := by
  simp only [sphereIntersect, sphNrm, sphHitP, sphTsel, sphT1s, sphT0s,
    sphT1, sphT0, sphQv, sphD2, sphCC, sphL, sphB, sphF, fdiv,
    Vec3q.normalize, Vec3q.norm, divS, bindIte, exBindErr, exBindOk, exPure]

/-- C6 (amended): `Sphere::intersect` misses when the discriminant is
negative; when the discriminant is nonnegative but `q = 0` (a grazing
ray with `b = 0` and zero discriminant) the division `t0 = c'/q` is the
fatal division-by-zero abort rather than a miss; otherwise it misses
when the larger ordered candidate is nonpositive and else records the
smallest positive of the candidates `t0 = c'/q`, `t1 = q`, with normal
`(p - c)` normalized; a ray from outside aimed at the center hits at
`t = dist - r` with normal the unit vector from the center to the hit
(oracle square roots assumed exact where the scenario needs them). -/
theorem sphere_intersect_spec (o : MathOracle) (c : Vec3q) (r : ℚ) (ray : Rayq) :
    (sphD2 c r ray < 0 → sphereIntersect o c r ray = .ok none) ∧
    (0 ≤ sphD2 c r ray → sphQv o c r ray = 0 →
      sphereIntersect o c r ray = .error .divByZero) ∧
    (0 ≤ sphD2 c r ray → sphQv o c r ray ≠ 0 → sphT1s o c r ray ≤ 0 →
      sphereIntersect o c r ray = .ok none) ∧
    (0 ≤ sphD2 c r ray → sphQv o c r ray ≠ 0 → 0 < sphT1s o c r ray →
      (0 < sphTsel o c r ray ∧
       (sphTsel o c r ray = sphT0 o c r ray ∨
        sphTsel o c r ray = sphT1 o c r ray) ∧
       (∀ s0, (s0 = sphT0 o c r ray ∨ s0 = sphT1 o c r ray) → 0 < s0 →
          sphTsel o c r ray ≤ s0) ∧
       (o.sqrtFn (normSq (sub (sphHitP o c r ray) c)) = 0 →
          sphereIntersect o c r ray = .error .divByZero) ∧
       (o.sqrtFn (normSq (sub (sphHitP o c r ray) c)) ≠ 0 →
          sphereIntersect o c r ray = .ok (some ⟨sphHitP o c r ray,
            sphNrm o c r ray, neg ray.d, sphTsel o c r ray,
            decide (dot (sphNrm o c r ray) ray.d < 0)⟩)))) ∧
    (∀ dist : ℚ, 0 < r → r < dist → dist * dist = normSq (sub ray.o c) →
      ray.d = smul (sub c ray.o) (1 / dist) → o.sqrtFn (r * r) = r →
      sphereIntersect o c r ray = .ok (some ⟨sphHitP o c r ray,
        sphNrm o c r ray, neg ray.d, sphTsel o c r ray,
        decide (dot (sphNrm o c r ray) ray.d < 0)⟩) ∧
      sphTsel o c r ray = dist - r ∧
      sphNrm o c r ray = smul (sub ray.o c) (1 / dist)) := by
  refine ⟨fun h => ?_, fun hd hq => ?_, fun hd hq ht => ?_,
    fun hd hq ht => ⟨?_, ?_, fun s0 hs0 hpos => ?_, fun hs0 => ?_, fun hs0 => ?_⟩,
    fun dist hr hrd hdist hdir hsq => ?_⟩
  · rw [sphereIntersect_reduce, if_pos h]
  · rw [sphereIntersect_reduce, if_neg (not_lt.2 hd), if_pos hq]
  · rw [sphereIntersect_reduce, if_neg (not_lt.2 hd), if_neg hq, if_pos ht]
  · rw [sphTsel]
    split_ifs with h0
    · exact ht
    · exact not_le.1 h0
  · simp only [sphTsel, sphT0s, sphT1s]
    split_ifs <;> first | exact Or.inl rfl | exact Or.inr rfl
  · rcases hs0 with rfl | rfl <;>
      (simp only [sphTsel, sphT0s, sphT1s] at ht ⊢;
       split_ifs at ht ⊢ <;> linarith)
  · rw [sphereIntersect_reduce, if_neg (not_lt.2 hd), if_neg hq,
      if_neg (not_le.2 ht), if_pos hs0]
  · rw [sphereIntersect_reduce, if_neg (not_lt.2 hd), if_neg hq,
      if_neg (not_le.2 ht), if_neg hs0]
  · -- the aimed-at-center scenario
    have hdp : (0 : ℚ) < dist := lt_trans hr hrd
    have hdn : dist ≠ 0 := ne_of_gt hdp
    obtain ⟨rayo, rayd⟩ := ray
    simp only at hdir
    subst hdir
    obtain ⟨cx, cy, cz⟩ := c
    obtain ⟨ox, oy, oz⟩ := rayo
    simp only [normSq, sub] at hdist
    have hb : sphB ⟨cx, cy, cz⟩
        ⟨⟨ox, oy, oz⟩, smul (sub ⟨cx, cy, cz⟩ ⟨ox, oy, oz⟩) (1 / dist)⟩ = dist := by
      simp only [sphB, sphF, dot, neg, sub, smul]
      field_simp
      linear_combination -hdist
    have hl0 : sphL ⟨cx, cy, cz⟩
        ⟨⟨ox, oy, oz⟩, smul (sub ⟨cx, cy, cz⟩ ⟨ox, oy, oz⟩) (1 / dist)⟩ =
        ⟨0, 0, 0⟩ := by
      rw [sphL, hb]
      simp only [sphF, add, smul, sub, Vec3q.mk.injEq]
      refine ⟨?_, ?_, ?_⟩ <;> field_simp
    have hd2v : sphD2 ⟨cx, cy, cz⟩ r
        ⟨⟨ox, oy, oz⟩, smul (sub ⟨cx, cy, cz⟩ ⟨ox, oy, oz⟩) (1 / dist)⟩ =
        r * r := by
      rw [sphD2, hl0]
      simp [dot]
    have hccv : sphCC ⟨cx, cy, cz⟩ r
        ⟨⟨ox, oy, oz⟩, smul (sub ⟨cx, cy, cz⟩ ⟨ox, oy, oz⟩) (1 / dist)⟩ =
        dist * dist - r * r := by
      simp only [sphCC, sphF, dot, sub]
      linear_combination -hdist
    have hqv : sphQv o ⟨cx, cy, cz⟩ r
        ⟨⟨ox, oy, oz⟩, smul (sub ⟨cx, cy, cz⟩ ⟨ox, oy, oz⟩) (1 / dist)⟩ =
        dist + r := by
      rw [sphQv, hb, hd2v, hsq, signQ, if_pos (le_of_lt hdp)]
      ring
    have hqne : sphQv o ⟨cx, cy, cz⟩ r
        ⟨⟨ox, oy, oz⟩, smul (sub ⟨cx, cy, cz⟩ ⟨ox, oy, oz⟩) (1 / dist)⟩ ≠ 0 := by
      rw [hqv]
      intro hcon
      linarith
    have ht0v : sphT0 o ⟨cx, cy, cz⟩ r
        ⟨⟨ox, oy, oz⟩, smul (sub ⟨cx, cy, cz⟩ ⟨ox, oy, oz⟩) (1 / dist)⟩ =
        dist - r := by
      rw [sphT0, hccv, hqv]
      have : dist + r ≠ 0 := by intro hcon; linarith
      field_simp
      ring
    have ht1v : sphT1 o ⟨cx, cy, cz⟩ r
        ⟨⟨ox, oy, oz⟩, smul (sub ⟨cx, cy, cz⟩ ⟨ox, oy, oz⟩) (1 / dist)⟩ =
        dist + r := hqv
    have hnoswap : ¬ (sphT1 o ⟨cx, cy, cz⟩ r
        ⟨⟨ox, oy, oz⟩, smul (sub ⟨cx, cy, cz⟩ ⟨ox, oy, oz⟩) (1 / dist)⟩ <
        sphT0 o ⟨cx, cy, cz⟩ r
        ⟨⟨ox, oy, oz⟩, smul (sub ⟨cx, cy, cz⟩ ⟨ox, oy, oz⟩) (1 / dist)⟩) := by
      rw [ht0v, ht1v]
      intro hcon
      linarith
    have ht0s : sphT0s o ⟨cx, cy, cz⟩ r
        ⟨⟨ox, oy, oz⟩, smul (sub ⟨cx, cy, cz⟩ ⟨ox, oy, oz⟩) (1 / dist)⟩ =
        dist - r := by
      rw [sphT0s, if_neg hnoswap, ht0v]
    have ht1s : sphT1s o ⟨cx, cy, cz⟩ r
        ⟨⟨ox, oy, oz⟩, smul (sub ⟨cx, cy, cz⟩ ⟨ox, oy, oz⟩) (1 / dist)⟩ =
        dist + r := by
      rw [sphT1s, if_neg hnoswap, ht1v]
    have htsel : sphTsel o ⟨cx, cy, cz⟩ r
        ⟨⟨ox, oy, oz⟩, smul (sub ⟨cx, cy, cz⟩ ⟨ox, oy, oz⟩) (1 / dist)⟩ =
        dist - r := by
      rw [sphTsel, ht0s, ht1s, if_neg (by intro hcon; linarith)]
    have hsubp : sub (sphHitP o ⟨cx, cy, cz⟩ r
        ⟨⟨ox, oy, oz⟩, smul (sub ⟨cx, cy, cz⟩ ⟨ox, oy, oz⟩) (1 / dist)⟩)
        ⟨cx, cy, cz⟩ =
        smul (sub ⟨ox, oy, oz⟩ ⟨cx, cy, cz⟩) (r / dist) := by
      rw [sphHitP, htsel]
      simp only [rayAt, add, smul, sub, Vec3q.mk.injEq]
      refine ⟨?_, ?_, ?_⟩ <;> field_simp <;> ring
    have hnsq : normSq (sub (sphHitP o ⟨cx, cy, cz⟩ r
        ⟨⟨ox, oy, oz⟩, smul (sub ⟨cx, cy, cz⟩ ⟨ox, oy, oz⟩) (1 / dist)⟩)
        ⟨cx, cy, cz⟩) = r * r := by
      rw [hsubp]
      simp only [normSq, smul, sub]
      field_simp
      linear_combination (-(r * r)) * hdist
    have hsqv : o.sqrtFn (normSq (sub (sphHitP o ⟨cx, cy, cz⟩ r
        ⟨⟨ox, oy, oz⟩, smul (sub ⟨cx, cy, cz⟩ ⟨ox, oy, oz⟩) (1 / dist)⟩)
        ⟨cx, cy, cz⟩)) = r := by
      rw [hnsq, hsq]
    refine ⟨?_, htsel, ?_⟩
    · rw [sphereIntersect_reduce,
        if_neg (by rw [hd2v]; exact not_lt.2 (mul_self_nonneg r)),
        if_neg hqne,
        if_neg (by rw [ht1s]; intro hcon; linarith),
        if_neg (by rw [hsqv]; exact ne_of_gt hr)]
    · rw [sphNrm, hsqv, hsubp]
      simp only [smul, sub, Vec3q.mk.injEq]
      have hrne : r ≠ 0 := ne_of_gt hr
      refine ⟨?_, ?_, ?_⟩ <;> field_simp <;> ring

/-- C6 counterexample: a grazing ray whose origin lies on the sphere and
whose direction is tangent there has `b = 0` and zero discriminant, so
`q = 0` and `t1 = q ≤ 0`; the claim predicts a miss, but the code
aborts: `t0 = c'/q` runs through the zero-checked `Float` division
(objects.cc:17) before the `t1 <= 0` rejection is reached. -/
theorem sphere_tangent_aborts_cex :
    sphD2 ⟨0, 0, 0⟩ 1 ⟨⟨1, 0, 0⟩, ⟨0, 1, 0⟩⟩ = 0 ∧
    sphT1 oracle0 ⟨0, 0, 0⟩ 1 ⟨⟨1, 0, 0⟩, ⟨0, 1, 0⟩⟩ ≤ 0 ∧
    sphereIntersect oracle0 ⟨0, 0, 0⟩ 1 ⟨⟨1, 0, 0⟩, ⟨0, 1, 0⟩⟩ =
      .error .divByZero := by
  refine ⟨?_, ?_, ?_⟩
  · norm_num [sphD2, sphL, sphB, sphF, dot, neg, sub, smul, add]
  · norm_num [sphT1, sphQv, sphB, sphF, sphD2, sphL, dot, neg, sub, smul,
      add, signQ, oracle0, sqrtTable]
  · rw [sphereIntersect_reduce]
    norm_num [sphD2, sphL, sphB, sphF, sphQv, dot, neg, sub, smul, add,
      signQ, oracle0, sqrtTable]

/-- Witness for C6: the sphere of radius 1 at the origin and the ray
from `(0,0,-3)` aimed at the center hit at `t = 3 - 1` with normal the
unit vector from the center to the hit. -/
theorem sphere_intersect_spec_w :
    (3 : ℚ) * 3 = normSq (sub (⟨0, 0, -3⟩ : Vec3q) ⟨0, 0, 0⟩) ∧
    (Rayq.mk ⟨0, 0, -3⟩ ⟨0, 0, 1⟩).d =
      smul (sub ⟨0, 0, 0⟩ ⟨0, 0, -3⟩) (1 / 3) ∧
    sphTsel oracle0 ⟨0, 0, 0⟩ 1 ⟨⟨0, 0, -3⟩, ⟨0, 0, 1⟩⟩ = 3 - 1 ∧
    sphNrm oracle0 ⟨0, 0, 0⟩ 1 ⟨⟨0, 0, -3⟩, ⟨0, 0, 1⟩⟩ =
      smul (sub ⟨0, 0, -3⟩ ⟨0, 0, 0⟩) (1 / 3) :=
  ⟨by norm_num [normSq, sub],
   by norm_num [smul, sub, Vec3q.mk.injEq],
   ((sphere_intersect_spec oracle0 ⟨0, 0, 0⟩ 1 ⟨⟨0, 0, -3⟩, ⟨0, 0, 1⟩⟩).2.2.2.2 3
     (by norm_num) (by norm_num) (by norm_num [normSq, sub])
     (by norm_num [smul, sub, Vec3q.mk.injEq])
     (by norm_num [oracle0, sqrtTable])).2.1,
   ((sphere_intersect_spec oracle0 ⟨0, 0, 0⟩ 1 ⟨⟨0, 0, -3⟩, ⟨0, 0, 1⟩⟩).2.2.2.2 3
     (by norm_num) (by norm_num) (by norm_num [normSq, sub])
     (by norm_num [smul, sub, Vec3q.mk.injEq])
     (by norm_num [oracle0, sqrtTable])).2.2⟩

/-!
## Theorems: the integrator on emitter-free scenes
-/

theorem smul_vzero (s : ℚ) : smul vzero s = vzero := by simp [smul, vzero]

theorem vmul_vzero (v : Vec3q) : vmul vzero v = vzero := by simp [vmul, vzero]

theorem add_vzero_right (v : Vec3q) : add v vzero = v := by simp [add, vzero]

theorem divS_vzero (s : ℚ) (h : s ≠ 0) : divS vzero s = .ok vzero := by
  simp [divS, fdiv, h, smul_vzero]

theorem vmax_vzero : vmax vzero = 0 := by simp [vmax, vzero]

/-- Any material attached by the `Scene::intersect` scan comes from the
running best or from one of the scanned primitives. -/
theorem sceneIntersectAux_emission (o : MathOracle) (ray : Rayq) :
    ∀ (objs : List Objq) (best : Option (Hitq × Materialq)),
      (∀ hb mb, best = some (hb, mb) → mb.emission = vzero) →
      (∀ ob ∈ objs, (Objq.matOf ob).emission = vzero) →
      ∀ res hit mat, sceneIntersectAux o ray objs best = .ok res →
        res = some (hit, mat) → mat.emission = vzero := by
  intro objs
  induction objs with
  | nil =>
      intro best hbest hobjs res hit mat hres heq
      simp only [sceneIntersectAux, Except.ok.injEq] at hres
      exact hbest hit mat (hres ▸ heq)
  | cons ob rest ih =>
      intro best hbest hobjs res hit mat hres heq
      simp only [sceneIntersectAux] at hres
      cases hob : objIntersect o ob ray with
      | error e => rw [hob, exBindErr] at hres; exact absurd hres (by simp)
      | ok h =>
          rw [hob, exBindOk] at hres
          refine ih (betterHit h ob.matOf best) ?_
            (fun x hx => hobjs x (List.mem_cons_of_mem _ hx)) res hit mat hres heq
          intro hb mb hsome
          cases h with
          | none =>
              exact hbest hb mb (by simpa [betterHit] using hsome)
          | some hh =>
              cases best with
              | none =>
                  simp only [betterHit, Option.some.injEq, Prod.mk.injEq] at hsome
                  rw [← hsome.2]
                  exact hobjs ob (List.mem_cons_self _ _)
              | some bb =>
                  simp only [betterHit] at hsome
                  by_cases hlt : hh.t < bb.1.t
                  · rw [if_pos hlt] at hsome
                    simp only [Option.some.injEq, Prod.mk.injEq] at hsome
                    rw [← hsome.2]
                    exact hobjs ob (List.mem_cons_self _ _)
                  · rw [if_neg hlt] at hsome
                    simp only [Option.some.injEq] at hsome
                    exact hbest hb mb (by rw [hsome])

/-- The material of any `Scene::intersect` hit on an emitter-free scene
has zero emission. -/
theorem sceneIntersect_emission (o : MathOracle) (s : Sceneq) (ray : Rayq)
    (hs : noEmit s) (hit : Hitq) (mat : Materialq)
    (hres : sceneIntersect o s ray = .ok (some (hit, mat))) :
    mat.emission = vzero :=
  sceneIntersectAux_emission o ray s.objects none (by simp) hs
    (some (hit, mat)) hit mat hres rfl

/-- On an emitter-free scene, `Li` can only ever return zero radiance:
termination, misses, absorption and the emission shortcut all return
zero, and the indirect product is zero because the recursive radiance
is. -/
theorem li_zero_aux (o : MathOracle) (s : Sceneq) (hs : noEmit s) :
    ∀ (d : ℕ) (ray : Rayq) (f : ℕ → ℚ) (i : ℕ) (v : Vec3q) (i2 : ℕ),
      Li o s d ray f i = .ok (v, i2) → v = vzero := by
  intro d
  induction d with
  | zero =>
      intro ray f i v i2 h
      simp only [Li, Except.ok.injEq, Prod.mk.injEq] at h
      exact h.1.symm
  | succ d ih =>
      intro ray f i v i2 h
      simp only [Li] at h
      cases hsi : sceneIntersect o s ray with
      | error e => simp only [hsi, exBindErr] at h; exact Except.noConfusion h
      | ok hres =>
          cases hres with
          | none =>
              simp only [hsi, exBindOk, Except.ok.injEq, Prod.mk.injEq] at h
              exact h.1.symm
          | some pr =>
              obtain ⟨hit, material⟩ := pr
              have hem : material.emission = vzero :=
                sceneIntersect_emission o s ray hs hit material hsi
              simp only [hsi, exBindOk] at h
              rw [hem, vmax_vzero, if_neg (lt_irrefl 0)] at h
              cases hrr : rrSelect material (f i) with
              | none =>
                  simp only [hrr, Except.ok.injEq, Prod.mk.injEq] at h
                  exact h.1.symm
              | some lp =>
                  obtain ⟨lobe, prob⟩ := lp
                  simp only [hrr] at h
                  cases hsmp : sampleLobe o material lobe hit.wo hit.n f (i + 1) with
                  | error e => simp only [hsmp, exBindErr] at h; exact Except.noConfusion h
                  | ok wp =>
                      obtain ⟨wi, ib⟩ := wp
                      simp only [hsmp, exBindOk] at h
                      cases hev : evalLobe o material lobe hit.wo wi hit.n with
                      | error e => simp only [hev, exBindErr] at h; exact Except.noConfusion h
                      | ok ev =>
                          simp only [hev, exBindOk] at h
                          cases hfr : divS ev prob with
                          | error e => simp only [hfr, exBindErr] at h; exact Except.noConfusion h
                          | ok fr =>
                              simp only [hfr, exBindOk] at h
                              cases hry : mkRay o (add hit.p (smul hit.n epsLi)) wi with
                              | error e => simp only [hry, exBindErr] at h; exact Except.noConfusion h
                              | ok ray2 =>
                                  simp only [hry, exBindOk] at h
                                  cases hrec : Li o s d ray2 f ib with
                                  | error e => simp only [hrec, exBindErr] at h; exact Except.noConfusion h
                                  | ok lr =>
                                      obtain ⟨lrec, i3⟩ := lr
                                      have hz : lrec = vzero :=
                                        ih ray2 f ib lrec i3 hrec
                                      simp only [hrec, exBindOk, hz,
                                        cosThetaILobe, pdfLobe, smul_vzero,
                                        vmul_vzero,
                                        divS_vzero 1 one_ne_zero,
                                        exPure, Except.ok.injEq,
                                        Prod.mk.injEq] at h
                                      exact h.1.symm

/-- The per-sample accumulation only ever adds zero radiance on an
emitter-free scene. -/
theorem renderSamples_zero (o : MathOracle) (s : Sceneq) (hs : noEmit s)
    (depth w h x y : ℕ) (f : ℕ → ℚ) :
    ∀ (spp i : ℕ) (acc v : Vec3q) (i2 : ℕ),
      renderSamples o s depth w h x y f spp i acc = .ok (v, i2) → v = acc := by
  intro spp
  induction spp with
  | zero =>
      intro i acc v i2 hh
      simp only [renderSamples, Except.ok.injEq, Prod.mk.injEq] at hh
      exact hh.1.symm
  | succ spp ih =>
      intro i acc v i2 hh
      simp only [renderSamples] at hh
      cases hmk : mkRay o eyeV (camDir w h x y (f i) (f (i + 1))) with
      | error e => simp only [hmk, exBindErr] at hh; exact Except.noConfusion hh
      | ok ray =>
          simp only [hmk, exBindOk] at hh
          cases hli : Li o s depth ray f (i + 2) with
          | error e =>
              simp only [hli, exBindErr] at hh
              exact Except.noConfusion hh
          | ok lr =>
              obtain ⟨lv, i3⟩ := lr
              have hz : lv = vzero := li_zero_aux o s hs depth ray f (i + 2) lv i3 hli
              simp only [hli, exBindOk] at hh
              rw [hz, add_vzero_right] at hh
              exact ih i3 acc v i2 hh

/-- Every pixel a row loop emits on an emitter-free scene is zero. -/
theorem renderRow_zero (o : MathOracle) (s : Sceneq) (hs : noEmit s)
    (depth spp w h y : ℕ) (f : ℕ → ℚ) :
    ∀ (cnt x i : ℕ) (pixs : List Vec3q) (i2 : ℕ),
      renderRow o s depth spp w h y f cnt x i = .ok (pixs, i2) →
      ∀ p ∈ pixs, p = vzero := by
  intro cnt
  induction cnt with
  | zero =>
      intro x i pixs i2 hh p hp
      simp only [renderRow, Except.ok.injEq, Prod.mk.injEq] at hh
      rw [← hh.1] at hp
      cases hp
  | succ cnt ih =>
      intro x i pixs i2 hh p hp
      simp only [renderRow] at hh
      cases hsm : renderSamples o s depth w h x y f spp i vzero with
      | error e => simp only [hsm, exBindErr] at hh; exact Except.noConfusion hh
      | ok sp =>
          obtain ⟨lsum, ib⟩ := sp
          have hz : lsum = vzero :=
            renderSamples_zero o s hs depth w h x y f spp i vzero lsum ib hsm
          simp only [hsm, exBindOk] at hh
          cases hdv : divS lsum (spp : ℚ) with
          | error e => simp only [hdv, exBindErr] at hh; exact Except.noConfusion hh
          | ok pix =>
              have hpixz : pix = vzero := by
                by_cases hspp : (spp : ℚ) = 0
                · rw [hz] at hdv
                  simp [divS, fdiv, hspp] at hdv
                · rw [hz, divS_vzero _ hspp] at hdv
                  simpa using hdv.symm
              simp only [hdv, exBindOk] at hh
              cases hrest : renderRow o s depth spp w h y f cnt (x + 1) ib with
              | error e =>
                  simp only [hrest, exBindErr] at hh
                  exact Except.noConfusion hh
              | ok rp =>
                  obtain ⟨rest, i4⟩ := rp
                  simp only [hrest, exBindOk, exPure, Except.ok.injEq,
                    Prod.mk.injEq] at hh
                  rw [← hh.1] at hp
                  rcases List.mem_cons.1 hp with rfl | hmem
                  · exact hpixz
                  · exact ih (x + 1) ib rest i4 hrest p hmem

/-- Every pixel the full row-major loop emits on an emitter-free scene
is zero. -/
theorem renderRows_zero (o : MathOracle) (s : Sceneq) (hs : noEmit s)
    (depth spp w h : ℕ) (f : ℕ → ℚ) :
    ∀ (cnt y i : ℕ) (pixs : List Vec3q) (i2 : ℕ),
      renderRows o s depth spp w h f cnt y i = .ok (pixs, i2) →
      ∀ p ∈ pixs, p = vzero := by
  intro cnt
  induction cnt with
  | zero =>
      intro y i pixs i2 hh p hp
      simp only [renderRows, Except.ok.injEq, Prod.mk.injEq] at hh
      rw [← hh.1] at hp
      cases hp
  | succ cnt ih =>
      intro y i pixs i2 hh p hp
      simp only [renderRows] at hh
      cases hrow : renderRow o s depth spp w h y f w 0 i with
      | error e => simp only [hrow, exBindErr] at hh; exact Except.noConfusion hh
      | ok rp =>
          obtain ⟨row, ib⟩ := rp
          simp only [hrow, exBindOk] at hh
          cases hrest : renderRows o s depth spp w h f cnt (y + 1) ib with
          | error e =>
              simp only [hrest, exBindErr] at hh
              exact Except.noConfusion hh
          | ok rr =>
              obtain ⟨rest, i4⟩ := rr
              simp only [hrest, exBindOk, exPure, Except.ok.injEq,
                Prod.mk.injEq] at hh
              rw [← hh.1] at hp
              rcases List.mem_append.1 hp with hmem | hmem
              · exact renderRow_zero o s hs depth spp w h y f w 0 i row ib hrow
                  p hmem
              · exact ih (y + 1) ib rest i4 hrest p hmem

/-- C7: on a scene in which every material's emission is zero, `Li`
returns zero radiance for every ray, depth and draw stream whenever it
completes, and `render` stores zero in every pixel of the buffer it
produces, for every image size, depth and sample count. -/
theorem li_render_zero_no_emitters (o : MathOracle) (s : Sceneq)
    (hs : noEmit s) :
    (∀ (d : ℕ) (ray : Rayq) (f : ℕ → ℚ) (i : ℕ) (v : Vec3q) (i2 : ℕ),
       Li o s d ray f i = .ok (v, i2) → v = vzero) ∧
    (∀ (w h depth spp : ℕ) (f : ℕ → ℚ) (i : ℕ) (buf : List Vec3q) (i2 : ℕ),
       renderQ o s w h depth spp f i = .ok (buf, i2) → ∀ p ∈ buf, p = vzero) :=
  ⟨li_zero_aux o s hs,
   fun w h depth spp f i buf i2 hh =>
     renderRows_zero o s hs depth spp w h f h 0 i buf i2 hh⟩

/-- C1 (code bug): with the point light present and the roulette
selecting the diffuse lobe, `Li` at depth 1 returns only the indirect
term — which is zero because the recursion bottoms out — and is
entirely independent of the scene's lights, while the next-event
direct term the claim (and the spec) require, `light.power * fr / r^2`
for the unoccluded light at distance 1, is the nonzero
`(113/355, 113/355, 113/355)`.  The source marks the omission itself:
`// TODO DIrect light` (main.cc:40), and `Scene::pointLightNEE` is
declared (objects.h:69) but defined nowhere. -/
theorem li_omits_direct_light :
    Li oracle0 scene1 1 ray1 st1 0 = .ok (vzero, 3) ∧
    Li oracle0 scene1 1 ray1 st1 0 = Li oracle0 sceneNoLight 1 ray1 st1 0 ∧
    neeDirect oracle0 scene1 ⟨0, 0, 1⟩ fr1 =
      .ok ⟨113/355, 113/355, 113/355⟩ ∧
    (⟨113/355, 113/355, 113/355⟩ : Vec3q) ≠ vzero := by
  refine ⟨?_, ?_, ?_, ?_⟩
  · show Li oracle0 scene1 (Nat.succ 0) ray1 st1 0 = .ok (vzero, 3)
    norm_num [Li, sceneIntersect, sceneIntersectAux, betterHit, Objq.matOf, objIntersect,
      triangleIntersect, fltEps, scene1, triBack, matDiffuse, mkMaterial,
      rrSelect, sampleLobe, diffuseSample, evalLobe, divS, fdiv, mkRay,
      Vec3q.normalize, Vec3q.norm, rayAt, add, sub, smul, vmul, dot, cross,
      neg, normSq, vmax, oracle0, sqrtTable, st1, ray1, epsLi,
      cosThetaILobe, pdfLobe, vzero]
  · show Li oracle0 scene1 (Nat.succ 0) ray1 st1 0 =
      Li oracle0 sceneNoLight (Nat.succ 0) ray1 st1 0
    norm_num [Li, sceneIntersect, sceneIntersectAux, betterHit, Objq.matOf, objIntersect,
      triangleIntersect, fltEps, scene1, sceneNoLight, triBack, matDiffuse,
      mkMaterial, rrSelect, sampleLobe, diffuseSample, evalLobe, divS, fdiv,
      mkRay, Vec3q.normalize, Vec3q.norm, rayAt, add, sub, smul, vmul, dot,
      cross, neg, normSq, vmax, oracle0, sqrtTable, st1, ray1, epsLi,
      cosThetaILobe, pdfLobe, vzero]
  · norm_num [neeDirect, neeDirectAux, scene1, light1, sceneIntersect,
      sceneIntersectAux, betterHit, Objq.matOf, objIntersect, triangleIntersect, fltEps,
      triBack, matDiffuse, mkMaterial, divS, fdiv, mkRay, Vec3q.normalize,
      Vec3q.norm, rayAt, add, sub, smul, vmul, dot, cross, neg, normSq,
      oracle0, sqrtTable, fr1, vzero]
  · simp [vzero, Vec3q.mk.injEq]

/-- Witness for C7: the no-light one-triangle scene has no emitters,
and `Li` on the concrete depth-1 hit evaluates to zero, as the theorem
demands. -/
theorem li_render_zero_no_emitters_w :
    noEmit sceneNoLight ∧ (vzero = vzero) :=
  ⟨by norm_num [noEmit, sceneNoLight, triBack, Objq.matOf, matDiffuse,
      mkMaterial, vmax, vzero],
   (li_render_zero_no_emitters oracle0 sceneNoLight
     (by norm_num [noEmit, sceneNoLight, triBack, Objq.matOf, matDiffuse,
       mkMaterial, vmax, vzero])).1 1 ray1 st1 0 vzero 3
     (by show Li oracle0 sceneNoLight (Nat.succ 0) ray1 st1 0 = .ok (vzero, 3)
         norm_num [Li, sceneIntersect, sceneIntersectAux, betterHit,
           Objq.matOf, objIntersect, triangleIntersect, fltEps, sceneNoLight, triBack,
           matDiffuse, mkMaterial, rrSelect, sampleLobe, diffuseSample,
           evalLobe, divS, fdiv, mkRay, Vec3q.normalize, Vec3q.norm, rayAt,
           add, sub, smul, vmul, dot, cross, neg, normSq, vmax, oracle0,
           sqrtTable, st1, ray1, epsLi, cosThetaILobe, pdfLobe, vzero])⟩
